import Mathlib

/-!
Shallow embedding of the conductor-agent task-orchestration core
(src/conductor.py and src/modules/task.py, worker.py, organization.py).

Modelling conventions:
* Python objects have identity; tasks and workers are referenced by numeric
  ids (natural numbers) and their mutable records live in the stores of an
  `OrgState`.
* Wall-clock timestamps (Python `datetime.now()`) are threaded explicitly as
  a rational `now`, measured in hours; the code only ever uses timestamps via
  second differences converted to hours, so subtraction of two model
  timestamps is exactly the quantity the code computes.
* Python floats are modelled as exact rationals.
* A function whose Python original can raise an uncaught exception returns
  `Option`; `none` models the exception escaping to the caller.
* The LLM call (`generator.generate`) is an external capability; its raw
  response text is an explicit input of the functions that consume it.
-/

namespace Cond

/-- Task status strings of task.py (`pending`, `in_progress`, `completed`, `blocked`). -/
inductive Status where
  | pending
  | in_progress
  | completed
  | blocked
deriving DecidableEq, Repr

/-- Actions recorded in a worker's `task_history` (worker.py). -/
inductive HistAction where
  | assigned
  | completed
deriving DecidableEq, Repr

/-- Record of modules/task.py `Task`.  `dependencies` and `related_tasks` hold
task ids, `assigned_worker` a worker id.  `subtasks` is omitted: no operation
verified here ever reads or writes it.  A note is its content paired with the
timestamp it was added at.  The name `PyTask` avoids the clash with the core
`Task` type; fields keep the source names. -/
structure PyTask where
  title : String
  description : String
  priority : Int
  deadline : Option ℚ
  required_skills : List String
  tags : List String
  dependencies : List Nat
  estimated_hours : Option ℚ
  assigned_worker : Option Nat
  assignment_time : Option ℚ
  completed_time : Option ℚ
  status : Status
  notes : List (String × ℚ)
  related_tasks : List Nat
deriving DecidableEq, Repr

/-- Record of modules/worker.py `Worker`.  `performance_metrics` is flattened
into its two keys `avg_completion_time` and `tasks_completed`. -/
structure PyWorker where
  name : String
  is_human : Bool
  skills : List String
  assigned_tasks : List Nat
  completed_tasks : List Nat
  task_history : List (Nat × HistAction × ℚ)
  experience_description : String
  avg_completion_time : ℚ
  tasks_completed : Nat
deriving DecidableEq, Repr

/-- Record of modules/organization.py `Organization` plus the object stores
for task and worker ids.  `workers` is the registration-order list,
`tasks` the live task list, `completed_tasks` the archive.  The
`skill_directory` is omitted: no operation verified here reads it. -/
structure OrgState where
  workers : List Nat
  tasks : List Nat
  completed_tasks : List Nat
  taskOf : Nat → PyTask
  workerOf : Nat → PyWorker

/-- Point update of one task record. -/
def updTask (i : Nat) (f : PyTask → PyTask) (s : OrgState) : OrgState :=
  { s with taskOf := fun j => if j = i then f (s.taskOf j) else s.taskOf j }

/-- Point update of one worker record. -/
def updWorker (i : Nat) (f : PyWorker → PyWorker) (s : OrgState) : OrgState :=
  { s with workerOf := fun j => if j = i then f (s.workerOf j) else s.workerOf j }

/-- Task.is_blocked (task.py 56-61): some dependency has status other than
`completed`. -/
def is_blocked (s : OrgState) (tk : PyTask) : Bool :=
  tk.dependencies.any (fun d => (s.taskOf d).status ≠ Status.completed)

/-- Task.update_status (task.py 63-73): no-op on a completed task, else
`blocked` if some dependency is incomplete, else `in_progress` if assigned,
else `pending`. -/
def update_status (t : Nat) (s : OrgState) : OrgState :=
  updTask t (fun tk =>
    if tk.status = Status.completed then tk
    else if is_blocked s tk then { tk with status := Status.blocked }
    else if tk.assigned_worker.isSome then { tk with status := Status.in_progress }
    else { tk with status := Status.pending }) s

/-- Task.add_note (task.py 38-43). -/
def add_note (t : Nat) (note : String) (now : ℚ) (s : OrgState) : OrgState :=
  updTask t (fun tk => { tk with notes := tk.notes ++ [(note, now)] }) s

/-- Task.urgency_score (task.py 75-100): priority plus a deadline-proximity
bonus (overdue +10, under a day +5, under 3 days +3, under a week +1). -/
def urgency_score (now : ℚ) (tk : PyTask) : ℚ :=
  match tk.deadline with
  | none => tk.priority
  | some dl =>
    let time_left := dl - now
    if time_left ≤ 0 then tk.priority + 10
    else if time_left < 24 then tk.priority + 5
    else if time_left < 72 then tk.priority + 3
    else if time_left < 168 then tk.priority + 1
    else tk.priority

/-- Worker.get_workload (worker.py 131-142): 0 when idle, else the sum of the
assigned tasks' priorities divided by 10 times the number of assigned tasks. -/
def get_workload (s : OrgState) (w : Nat) : ℚ :=
  let wk := s.workerOf w
  if wk.assigned_tasks = [] then 0
  else ((wk.assigned_tasks.map (fun t => ((s.taskOf t).priority : ℚ))).sum) / 10
       * wk.assigned_tasks.length

/-- Worker.assign_task (worker.py 28-43): append to `assigned_tasks`, set the
task's `assigned_worker` and `assignment_time`, append an `assigned` history
entry. -/
def assign_task (w t : Nat) (now : ℚ) (s : OrgState) : OrgState :=
  let s1 := updWorker w (fun wk =>
    { wk with assigned_tasks := wk.assigned_tasks ++ [t]
            , task_history := wk.task_history ++ [(t, HistAction.assigned, now)] }) s
  updTask t (fun tk => { tk with assigned_worker := some w, assignment_time := some now }) s1

/-- Metrics update of Worker._update_performance_metrics (worker.py 80-83):
from `(avg, count)` and a new completion duration, the running average is
recomputed as `(avg * count + hours) / (count + 1)` and the count
incremented. -/
def updateMetrics (m : ℚ × Nat) (hours : ℚ) : ℚ × Nat :=
  ((m.1 * m.2 + hours) / (m.2 + 1), m.2 + 1)

/-- Rendering of a rational with one decimal place, standing in for Python's
`f"{x:.1f}"` (float rounding artifacts and tie behaviour are not modelled; no
claim depends on the rendered digits). -/
def fmt1 (q : ℚ) : String :=
  let n : Int := Rat.floor (q * 10 + 1 / 2)
  (if n < 0 then "-" else "") ++ toString (n.natAbs / 10) ++ "." ++ toString (n.natAbs % 10)

/-- Narrative paragraph of Worker._update_experience_description
(worker.py 85-129).  `completedOfW` is the worker's `completed_tasks` list at
call time (the completed task has already been appended).  In the verified
flow `completion_time` is always available, so it is passed directly; a zero
`estimated_hours` is falsy in Python and treated like an absent estimate. -/
def experienceText (s : OrgState) (completedOfW : List Nat) (tk : PyTask)
    (completion_time : ℚ) : String :=
  let base := "Completed '" ++ tk.title ++ "' "
  let base := if tk.required_skills ≠ [] then
      base ++ "using skills in " ++ String.intercalate ", " tk.required_skills ++ " "
    else base
  let base :=
    match tk.estimated_hours with
    | some e =>
      if e ≠ 0 then
        if completion_time < e then
          base ++ "faster than expected (" ++ fmt1 completion_time ++ " vs " ++ fmt1 e ++ " hours). "
        else if e < completion_time then
          base ++ "taking longer than expected (" ++ fmt1 completion_time ++ " vs " ++ fmt1 e ++ " hours). "
        else base ++ "in the expected time (" ++ fmt1 completion_time ++ " hours). "
      else base ++ "in " ++ fmt1 completion_time ++ " hours. "
    | none => base ++ "in " ++ fmt1 completion_time ++ " hours. "
  let relTitles := (tk.related_tasks.filter (fun rt => rt ∈ completedOfW)).map
      (fun rt => (s.taskOf rt).title)
  let base := if relTitles ≠ [] then
      base ++ "This built on previous experience with " ++ String.intercalate ", " relTitles ++ ". "
    else base
  base ++ "Task involved: " ++ tk.description

/-- Worker.complete_task (worker.py 45-68).  A no-op (the whole body is
guarded) when the task is not in this worker's `assigned_tasks`; otherwise it
moves the task to `completed_tasks`, stamps `completed_time`, sets status
`completed`, appends a history entry, updates the performance metrics and
appends the experience paragraph.  Returns `none` for the Python `TypeError`
raised in `_update_performance_metrics` when `assignment_time` is `None`
(both `hasattr` guards are always true, since `__init__` sets the
attributes). -/
def complete_task (w t : Nat) (now : ℚ) (s : OrgState) : Option OrgState :=
  if t ∈ (s.workerOf w).assigned_tasks then
    match (s.taskOf t).assignment_time with
    | none => none
    | some a =>
      let hours := now - a
      let s1 := updWorker w (fun wk =>
        { wk with assigned_tasks := wk.assigned_tasks.erase t
                , completed_tasks := wk.completed_tasks ++ [t]
                , task_history := wk.task_history ++ [(t, HistAction.completed, now)] }) s
      let s2 := updTask t (fun tk =>
        { tk with completed_time := some now, status := Status.completed }) s1
      let s3 := updWorker w (fun wk =>
        let m := updateMetrics (wk.avg_completion_time, wk.tasks_completed) hours
        { wk with avg_completion_time := m.1, tasks_completed := m.2 }) s2
      some (updWorker w (fun wk =>
        let para := experienceText s3 wk.completed_tasks (s3.taskOf t) hours
        { wk with experience_description :=
            if wk.experience_description ≠ "" then
              wk.experience_description ++ "\n\n" ++ para
            else para }) s3)
  else some s

/-- Score of one candidate in Organization._auto_assign_task
(organization.py 75-90): `1 / (1 + workload)` times the urgency score times a
1.5 skill boost when the worker shares a required skill (or the task requires
none). -/
def autoScore (s : OrgState) (now : ℚ) (tk : PyTask) (w : Nat) : ℚ :=
  let workload_factor := 1 / (1 + get_workload s w)
  let urgency := urgency_score now tk
  let has_some_skills :=
    if tk.required_skills = [] then true
    else tk.required_skills.any (fun sk => sk ∈ (s.workerOf w).skills)
  let skill_boost : ℚ := if has_some_skills then 3 / 2 else 1
  workload_factor * urgency * skill_boost

/-- Organization._auto_assign_task (organization.py 62-104).  The Python code
iterates `set(self.workers)`, whose iteration order is unspecified and in
general differs from registration order; that order is therefore an explicit
parameter `order` (an enumeration of the worker set).  Division by zero
(Python would raise ZeroDivisionError when `1 + workload = 0`) is not
modelled: rational division yields 0 there.

The best-so-far loop (organization.py 69-94) is `bestWorker`: fold the
scoring function over the candidate enumeration starting from
`best_worker = None`, `best_score = -1`, replacing the champion only on a
strictly greater score. -/
def bestWorker (f : Nat → ℚ) (order : List Nat) : Option Nat × ℚ :=
  order.foldl (fun b w => if f w > b.2 then (some w, f w) else b) (none, -1)

/-- Organization._auto_assign_task (organization.py 62-104), assembled from
`bestWorker` over the given set-iteration order and the assignment of the
champion (worker-side `assign_task` then `update_status`); with no champion
the state is untouched and no worker returned. -/
def auto_assign_task (order : List Nat) (t : Nat) (now : ℚ) (s : OrgState) :
    OrgState × Option Nat :=
  match (bestWorker (autoScore s now (s.taskOf t)) order).1 with
  | some w => (update_status t (assign_task w t now s), some w)
  | none => (s, none)

/-- Organization.add_task (organization.py 36-60): append the task, symmetrise
`related_tasks` against tasks already owned by the organization, then
optionally auto-assign (with set-iteration order `order`). -/
def add_task (t : Nat) (auto_assign : Bool) (order : List Nat) (now : ℚ)
    (s : OrgState) : OrgState :=
  let s1 := { s with tasks := s.tasks ++ [t] }
  let s2 := (s1.taskOf t).related_tasks.foldl (fun st r =>
      if r ∉ st.tasks ∧ r ∉ st.completed_tasks then st
      else if t ∉ (st.taskOf r).related_tasks then
        updTask r (fun tk => { tk with related_tasks := tk.related_tasks ++ [t] }) st
      else st) s1
  if auto_assign then (auto_assign_task order t now s2).1 else s2

/-- One iteration of the dependency-removal loop of
Conductor.handle_task_completion (conductor.py 325-333), applied to the
dependent task `d` after `t` completed: if `t` is listed among `d`'s
dependencies, remove its first occurrence (Python `list.remove`), call
`update_status`, and apply the (dead, see the theorems) re-check that sets a
still-`blocked` unblocked task to `pending`.  The three statements of the
loop body are `dep_erase` (conductor.py 327), `update_status`
(conductor.py 328) and `dep_recheck` (conductor.py 331-333). -/
def dep_erase (t d : Nat) (s : OrgState) : OrgState :=
  updTask d (fun tk => { tk with dependencies := tk.dependencies.erase t }) s

/-- Re-check of conductor.py 331-333 after `update_status`: a task that is no
longer blocked but still carries status `blocked` is set to `pending`. -/
def dep_recheck (d : Nat) (s2 : OrgState) : OrgState :=
  if ¬ is_blocked s2 (s2.taskOf d) ∧ (s2.taskOf d).status = Status.blocked then
    updTask d (fun tk => { tk with status := Status.pending }) s2
  else s2

def dep_step (t : Nat) (s : OrgState) (d : Nat) : OrgState :=
  if t ∈ (s.taskOf d).dependencies then
    dep_recheck d (update_status d (dep_erase t d s))
  else s

/-- The dependency-removal loop of Conductor.handle_task_completion
(conductor.py 324-333): `dep_step` over every task currently in
`Organization.tasks` (the loop body never changes that list). -/
def dep_loop (t : Nat) (s : OrgState) : OrgState :=
  s.tasks.foldl (dep_step t) s

/-- Characters stripped by Python `str.strip()` (ASCII whitespace; exotic
Unicode whitespace is out of scope, none of it occurs in the protocol). -/
def isPySpace (c : Char) : Bool :=
  c = ' ' || c = '\t' || c = '\n' || c = '\r' || c = '\x0b' || c = '\x0c'

/-- Python `str.strip()` on a character list. -/
def pyStrip (l : List Char) : List Char :=
  ((l.dropWhile isPySpace).reverse.dropWhile isPySpace).reverse

/-- Python `str.lower()` (ASCII; the protocol only needs the letters of
"task"). -/
def pyLower (l : List Char) : List Char :=
  l.map Char.toLower

/-- Python substring containment `pat in s`. -/
def hasSub (s pat : List Char) : Bool :=
  match s with
  | [] => pat.isEmpty
  | c :: rest => pat.isPrefixOf (c :: rest) || hasSub rest pat

/-- Python `str.split(sep)` with an explicit non-empty separator, accumulator
form: splits at every occurrence, left to right; always returns at least one
(possibly empty) piece.  The `fuel` argument only forces structural
recursion; every call site supplies at least the length of `xs`, and each
step consumes at least one character, so the fuel never runs out. -/
def pySplitGo (sep : List Char) : Nat → List Char → List Char → List (List Char)
  | 0, xs, acc => [acc.reverse ++ xs]
  | fuel + 1, xs, acc =>
    match xs with
    | [] => [acc.reverse]
    | c :: rest =>
      if sep ≠ [] ∧ sep.isPrefixOf (c :: rest) then
        acc.reverse :: pySplitGo sep fuel ((c :: rest).drop sep.length) []
      else
        pySplitGo sep fuel rest (c :: acc)

/-- Python `str.split(sep)` for a non-empty separator. -/
def pySplit (sep s : List Char) : List (List Char) :=
  pySplitGo sep s.length s []

/-- Python `str.split(sep, 1)`: the pieces before and after the first
occurrence of the separator, or `none` when the separator does not occur. -/
def pySplitFirst (sep : List Char) : List Char → Option (List Char × List Char)
  | [] => none
  | c :: rest =>
    if sep ≠ [] ∧ sep.isPrefixOf (c :: rest) then
      some ([], (c :: rest).drop sep.length)
    else
      (pySplitFirst sep rest).map (fun p => (c :: p.1, p.2))

/-- Python `str.splitlines()`, accumulator form, recognising `\n`, `\r\n` and
`\r` line boundaries: no trailing empty line, and the empty string yields no
lines at all. -/
def pySplitlinesGo : List Char → List Char → List (List Char)
  | [], acc => if acc.isEmpty then [] else [acc.reverse]
  | '\r' :: '\n' :: rest, acc => acc.reverse :: pySplitlinesGo rest []
  | '\n' :: rest, acc => acc.reverse :: pySplitlinesGo rest []
  | '\r' :: rest, acc => acc.reverse :: pySplitlinesGo rest []
  | c :: rest, acc => pySplitlinesGo rest (c :: acc)

/-- Python `str.splitlines()`. -/
def pySplitlines (s : List Char) : List (List Char) :=
  pySplitlinesGo s []

/-- Python `str.replace(pat, rep)` for a non-empty pattern, accumulator
form: every non-overlapping occurrence, scanned left to right.  As in
`pySplitGo`, the fuel only forces structural recursion and never runs out at
the call sites. -/
def pyReplaceGo (pat rep : List Char) : Nat → List Char → List Char
  | 0, xs => xs
  | fuel + 1, xs =>
    match xs with
    | [] => []
    | c :: rest =>
      if pat ≠ [] ∧ pat.isPrefixOf (c :: rest) then
        rep ++ pyReplaceGo pat rep fuel ((c :: rest).drop pat.length)
      else
        c :: pyReplaceGo pat rep fuel rest

/-- Python `str.replace(pat, rep)` for a non-empty pattern. -/
def pyReplace (xs pat rep : List Char) : List Char :=
  pyReplaceGo pat rep xs.length xs

/-- Value of an ASCII digit. -/
def digitVal (c : Char) : Nat :=
  c.toNat - 48

/-- Digit tail of Python `int(str)`: ASCII digits with single underscores
allowed between digits. -/
def pyDigitsGo (acc : Nat) : List Char → Option Nat
  | [] => some acc
  | '_' :: c :: rest =>
    if c.isDigit then pyDigitsGo (acc * 10 + digitVal c) rest else none
  | c :: rest =>
    if c.isDigit then pyDigitsGo (acc * 10 + digitVal c) rest else none

/-- Digit part of Python `int(str)`: at least one digit, no leading
underscore. -/
def pyDigits : List Char → Option Nat
  | [] => none
  | c :: rest => if c.isDigit then pyDigitsGo (digitVal c) rest else none

/-- Python `int(str)` (ASCII): surrounding whitespace stripped, an optional
sign directly attached to the digits; `none` models the ValueError.  Unicode
digits are out of scope. -/
def pyInt (l : List Char) : Option Int :=
  match pyStrip l with
  | '+' :: r => (pyDigits r).map (fun n => (n : Int))
  | '-' :: r => (pyDigits r).map (fun n => -(n : Int))
  | r => (pyDigits r).map (fun n => (n : Int))

/-- Python `next((w for w in self.organization.workers if w.name == name),
None)` (conductor.py 257): the first registered worker with exactly this
name. -/
def findWorker (s : OrgState) (name : String) : Option Nat :=
  s.workers.find? (fun w => (s.workerOf w).name == name)

/-- One task reference of a worker line (conductor.py 266-289): stripped, it
must contain the word "task" (the code tests `"Task" in ref or "task" in
ref.lower()`, kept verbatim here); the lowercased reference with every
"task" and "#" removed and re-stripped must parse as an integer `k` with
`1 ≤ k ≤ len(tasks)`; the accepted reference resolves to `tasks[k - 1]`.
Every other case is skipped (`none`). -/
def resolveRef (s : OrgState) (ref0 : List Char) : Option Nat :=
  let ref := pyStrip ref0
  if hasSub ref "Task".data || hasSub (pyLower ref) "task".data then
    let cleaned := pyStrip (pyReplace (pyReplace (pyLower ref) "task".data []) "#".data [])
    match pyInt cleaned with
    | some k =>
      if 1 ≤ k ∧ k ≤ (s.tasks.length : Int) then s.tasks.get? (k.toNat - 1)
      else none
    | none => none
  else none

/-- The reference loop of one worker line (conductor.py 263-289) over the
already comma-split references: accepted references are appended in order,
skipped ones contribute nothing. -/
def parseRefList (s : OrgState) (refs : List (List Char)) : List Nat :=
  refs.foldl (fun acc ref =>
    match resolveRef s ref with
    | some t => acc ++ [t]
    | none => acc) []

/-- Task list parsed from the right-hand side of one worker line
(conductor.py 266): split on commas, then the reference loop. -/
def parseTaskRefs (s : OrgState) (taskNumsStr : List Char) : List Nat :=
  parseRefList s (pySplit ",".data taskNumsStr)

/-- Worker resolution of one assignment line (conductor.py 252-257): the line
must contain a colon; the part before the first colon, stripped, must equal a
registered worker's name. -/
def lineWorkerName (s : OrgState) (line : List Char) : Option String :=
  if hasSub line ":".data then
    match pySplitFirst ":".data line with
    | some p =>
      let wn := String.mk (pyStrip p.1)
      if (findWorker s wn).isSome then some wn else none
    | none => none
  else none

/-- Right-hand side of one assignment line: everything after the first colon
(conductor.py 253). -/
def lineTaskStr (line : List Char) : List Char :=
  match pySplitFirst ":".data line with
  | some p => p.2
  | none => []

/-- Python dict insertion `d[k] = v`: replace the value at an existing key in
place, else append the new binding. -/
def dictSet (d : List (String × List Nat)) (k : String) (v : List Nat) :
    List (String × List Nat) :=
  match d with
  | [] => [(k, v)]
  | (k0, v0) :: rest => if k0 = k then (k, v) :: rest else (k0, v0) :: dictSet rest k v

/-- Python dict lookup `d.get(k)` on the association-list model. -/
def dictGet (d : List (String × List Nat)) (k : String) : Option (List Nat) :=
  match d with
  | [] => none
  | (k0, v0) :: rest => if k0 = k then some v0 else dictGet rest k

/-- One line of the assignments loop (conductor.py 251-292): when the line
resolves to a registered worker, `assignments[worker_name] = task_assignments`
overwrites any earlier binding for that name; every other line leaves the
dict unchanged. -/
def stepLine (s : OrgState) (asg : List (String × List Nat)) (line : List Char) :
    List (String × List Nat) :=
  match lineWorkerName s line with
  | some wn => dictSet asg wn (parseTaskRefs s (lineTaskStr line))
  | none => asg

/-- The line loop of Conductor._parse_assignment_response over the lines of
the ASSIGNMENTS section (conductor.py 251-292). -/
def processLines (s : OrgState) (lines : List (List Char)) :
    List (String × List Nat) :=
  lines.foldl (stepLine s) []

/-- Conductor._parse_assignment_response (conductor.py 230-300).  The Python
dict is modelled as an association list with Python insertion semantics
(`dictSet`).  `response.split("ASSIGNMENTS:")[1]` is the piece between the
first and second occurrence of the marker, guaranteed to exist when the
marker occurs.  The surrounding try/except never fires: every step of this
model is total, so the function always returns an (possibly empty)
assignment dict. -/
def parse_assignment_response (s : OrgState) (response : String) :
    List (String × List Nat) :=
  if hasSub response.data "ASSIGNMENTS:".data then
    match (pySplit "ASSIGNMENTS:".data response.data).get? 1 with
    | some sec => processLines s (pySplit "\n".data (pyStrip sec))
    | none => []
  else []

/-- Last line of the ASSIGNMENTS section (lines of `pySplit "\n"`) whose left
side resolves to the registered worker name `wn`. -/
def lastMatch (s : OrgState) (wn : String) : List (List Char) → Option (List Char)
  | [] => none
  | l :: rest =>
    match lastMatch s wn rest with
    | some r => some r
    | none => if lineWorkerName s l = some wn then some l else none

/-- Conductor.handle_task_completion (conductor.py 302-338).  With no
assigned worker it only logs and returns the failure flag `False`; otherwise
it runs the worker-side completion, moves the task from `tasks` to
`completed_tasks` (when present), records non-empty feedback as a note
(Python truthiness: empty feedback is skipped), runs the dependency-removal
loop and returns `True`. -/
def handle_task_completion (t : Nat) (feedback : Option String) (now : ℚ)
    (s : OrgState) : Option (OrgState × Bool) :=
  match (s.taskOf t).assigned_worker with
  | some w =>
    match complete_task w t now s with
    | none => none
    | some s1 =>
      let s2 := if t ∈ s1.tasks then
          { s1 with tasks := s1.tasks.erase t
                  , completed_tasks := s1.completed_tasks ++ [t] }
        else s1
      let s3 := match feedback with
        | some f => if f = "" then s2 else add_note t ("Completion feedback: " ++ f) now s2
        | none => s2
      some (dep_loop t s3, true)
  | none => some (s, false)

/-- Python `enumerate(xs, 1)`: 1-based positional labels. -/
def enum1 (l : List Nat) : List (Nat × Nat) :=
  (List.range l.length).zip l |>.map (fun p => (p.1 + 1, p.2))

/-- Stand-in for `deadline.strftime('%Y-%m-%d %H:%M')` in get_tasks_txt
(organization.py 160, 174): calendar rendering is not modelled, only the
absent/present distinction the code makes; no claim reads the digits. -/
def fmtDeadline (d : Option ℚ) : String :=
  match d with
  | none => "No deadline"
  | some q => fmt1 q

/-- The `(index, task)` pairs labelled "Task i" in the Unassigned section of
Organization.get_tasks_txt (organization.py 159-168): the unassigned tasks in
`tasks` order, enumerated from 1 within the section. -/
def snapshot_unassigned (s : OrgState) : List (Nat × Nat) :=
  enum1 (s.tasks.filter (fun t => (s.taskOf t).assigned_worker = none))

/-- The `(index, task)` pairs labelled "Task i" in the Assigned section of
Organization.get_tasks_txt (organization.py 173-184): the assigned tasks in
`tasks` order, enumerated from 1 within the section. -/
def snapshot_assigned (s : OrgState) : List (Nat × Nat) :=
  enum1 (s.tasks.filter (fun t => (s.taskOf t).assigned_worker ≠ none))

/-- Text block of one unassigned task entry (organization.py 162-166). -/
def unassignedEntry (s : OrgState) (p : Nat × Nat) : String :=
  "Task " ++ toString p.1 ++ ": " ++ (s.taskOf p.2).description ++ "\n" ++
  "Priority: " ++ toString (s.taskOf p.2).priority ++ "\n" ++
  "Deadline: " ++ fmtDeadline (s.taskOf p.2).deadline

/-- Text block of one assigned task entry (organization.py 177-182). -/
def assignedEntry (s : OrgState) (p : Nat × Nat) : String :=
  unassignedEntry s p ++ "\n" ++
  "Assigned to: " ++
    (match (s.taskOf p.2).assigned_worker with
     | some w => (s.workerOf w).name
     | none => "Unassigned")

/-- Organization.get_tasks_txt (organization.py 134-186): the context
snapshot of all tasks, grouped into Unassigned and Assigned sections, each
section enumerating its tasks from 1 (`snapshot_unassigned`,
`snapshot_assigned`). -/
def get_tasks_txt (s : OrgState) : String :=
  if s.tasks = [] then "No tasks in the organization."
  else
    let unassigned := snapshot_unassigned s
    let assigned := snapshot_assigned s
    let header := ["Total Tasks: " ++ toString s.tasks.length]
    let ub :=
      if unassigned ≠ [] then
        ("\nUnassigned Tasks (" ++ toString unassigned.length ++ "):") ::
          unassigned.map (unassignedEntry s)
      else []
    let ab :=
      if assigned ≠ [] then
        ("\nAssigned Tasks (" ++ toString assigned.length ++ "):") ::
          assigned.map (assignedEntry s)
      else []
    String.intercalate "\n\n" (header ++ ub ++ ab)

/-- Conductor.assign_new_task (conductor.py 166-228).  The task is first
registered via `add_task` (auto_assign is left at its default False, so the
set-iteration order is irrelevant); the LLM `response` is an input.  The
parse takes the last `splitlines()` line verbatim (`none` models the
IndexError when the response has no lines, raised outside the try).  The
match loop calls `assign_task` on every registered worker whose name equals
that line and returns the last such worker.  The bare `except` of
conductor.py 225-226 is unreachable: no statement of the try body raises in
this model (and even in Python it would only return `workers[0]` without
assigning the task). -/
def assign_new_task (t : Nat) (response : String) (now : ℚ) (s : OrgState) :
    Option (OrgState × Option Nat) :=
  let s1 := add_task t false [] now s
  match (pySplitlines response.data).getLast? with
  | none => none
  | some lastLine =>
    some (s1.workers.foldl (fun (p : OrgState × Option Nat) w =>
      if String.mk lastLine = (p.1.workerOf w).name then
        (assign_task w t now p.1, some w)
      else p) (s1, none))

/-- Task record as built by Task.__init__ (task.py 5-36): detached, pending,
no assignment data, empty notes and related lists. -/
def mkTask (title description : String) (priority : Int) (deadline : Option ℚ)
    (required_skills tags : List String) (dependencies : List Nat)
    (estimated_hours : Option ℚ) : PyTask :=
  { title := title
  , description := description
  , priority := priority
  , deadline := deadline
  , required_skills := required_skills
  , tags := tags
  , dependencies := dependencies
  , estimated_hours := estimated_hours
  , assigned_worker := none
  , assignment_time := none
  , completed_time := none
  , status := Status.pending
  , notes := []
  , related_tasks := [] }

/-- Worker record as built by Worker.__init__ (worker.py 5-26). -/
def mkWorker (name : String) (is_human : Bool) (skills : List String) : PyWorker :=
  { name := name
  , is_human := is_human
  , skills := skills
  , assigned_tasks := []
  , completed_tasks := []
  , task_history := []
  , experience_description := ""
  , avg_completion_time := 0
  , tasks_completed := 0 }

/-- The partition property of the spec: counting multiplicity, every task id
occurs at most once across `Organization.tasks` and
`Organization.completed_tasks` together (so a task ever added sits in exactly
one of the two). -/
def partitionInv (s : OrgState) : Prop :=
  ∀ t, s.tasks.count t + s.completed_tasks.count t ≤ 1

/-- Concrete organization for the single-task planning scenario: one
registered worker 0 named "Alice"; task 5 exists in the store and is not yet
registered. -/
def sC1 : OrgState :=
  { workers := [0]
  , tasks := []
  , completed_tasks := []
  , taskOf := fun _ => mkTask "New task" "Do the thing" 3 none [] [] [] none
  , workerOf := fun _ => mkWorker "Alice" true ["writing"] }

/-- Concrete organization for the snapshot-numbering scenario: task 1
("Write report") is assigned to worker 0 ("Walt"), task 2 ("Review code") is
unassigned; `tasks = [1, 2]`. -/
def sC2 : OrgState :=
  { workers := [0]
  , tasks := [1, 2]
  , completed_tasks := []
  , taskOf := fun j =>
      if j = 1 then
        { mkTask "Report" "Write report" 3 none [] [] [] none with
            assigned_worker := some 0, assignment_time := some 0
          , status := Status.in_progress }
      else mkTask "Review" "Review code" 2 none [] [] [] none
  , workerOf := fun _ =>
      { mkWorker "Walt" true [] with assigned_tasks := [1] } }

/-- Empty organization with one registered worker 0 ("Alice") and task 7 in
the store, used to build the partition-invariant trace. -/
def sC3start : OrgState :=
  { workers := [0]
  , tasks := []
  , completed_tasks := []
  , taskOf := fun _ => mkTask "Ship" "Ship the feature" 5 none [] [] [] none
  , workerOf := fun _ => mkWorker "Alice" true [] }

/-- Trace add task 7. -/
def sC3a : OrgState := add_task 7 false [] 0 sC3start

/-- Trace assign task 7 to worker 0. -/
def sC3b : OrgState := assign_task 0 7 0 sC3a

/-- Trace complete task 7 through the conductor. -/
def sC3c : Option (OrgState × Bool) := handle_task_completion 7 none 1 sC3b

/-- Trace re-add the already archived task 7 (`add_task` does not check the
archive). -/
def sC3d : Option OrgState := sC3c.map (fun p => add_task 7 false [] 2 p.1)

/-- Concrete organization for the dependency-removal scenario: task 1 is
assigned to worker 0 and in progress; task 2 lists task 1 twice in its
dependencies and is blocked; task 3 lists task 1 once but already carries
status `completed` while still sitting in `tasks`. -/
def sC6 : OrgState :=
  { workers := [0]
  , tasks := [1, 2, 3]
  , completed_tasks := []
  , taskOf := fun j =>
      if j = 1 then
        { mkTask "Base" "Base work" 4 none [] [] [] none with
            assigned_worker := some 0, assignment_time := some 0
          , status := Status.in_progress }
      else if j = 2 then
        { mkTask "Dup" "Depends twice" 3 none [] [] [1, 1] none with
            status := Status.blocked }
      else
        { mkTask "Done" "Already done" 2 none [] [] [1] none with
            status := Status.completed }
  , workerOf := fun _ =>
      { mkWorker "Alice" true [] with assigned_tasks := [1] } }

/-- Concrete organization for the auto-assignment tie: workers 0 ("Alice")
and 1 ("Bob") registered in that order, both idle and skill-free; task 3 has
priority 2, no deadline and no required skills, so both workers score the
same. -/
def sC7 : OrgState :=
  { workers := [0, 1]
  , tasks := [3]
  , completed_tasks := []
  , taskOf := fun _ => mkTask "Tied" "Anyone can do it" 2 none [] [] [] none
  , workerOf := fun j =>
      if j = 1 then mkWorker "Bob" false [] else mkWorker "Alice" true [] }

/-- Concrete organization shared by several witnesses: worker 0 ("Alice")
holds task 4 (assigned at time 0); task 9 is registered but unassigned. -/
def sEx : OrgState :=
  { workers := [0]
  , tasks := [4, 9]
  , completed_tasks := []
  , taskOf := fun j =>
      if j = 4 then
        { mkTask "Held" "Assigned work" 3 none [] [] [] none with
            assigned_worker := some 0, assignment_time := some 0
          , status := Status.in_progress }
      else mkTask "Loose" "Unassigned work" 2 none [] [] [] none
  , workerOf := fun _ =>
      { mkWorker "Alice" true [] with assigned_tasks := [4] } }

/-- Concrete organization for the batch-parse witnesses: worker 0 ("Cara")
registered, three tasks 11, 12, 13. -/
def sC4 : OrgState :=
  { workers := [0]
  , tasks := [11, 12, 13]
  , completed_tasks := []
  , taskOf := fun _ => mkTask "Any" "Any" 1 none [] [] [] none
  , workerOf := fun _ => mkWorker "Cara" false [] }

/-- Concrete organization for the dependency-removal witness: task 1 is held
by worker 0 ("Alice", assigned at time 0); task 2 lists task 1 exactly once
as a dependency and is blocked. -/
def sW6 : OrgState :=
  { workers := [0]
  , tasks := [1, 2]
  , completed_tasks := []
  , taskOf := fun j =>
      if j = 1 then
        { mkTask "Base" "Base work" 4 none [] [] [] none with
            assigned_worker := some 0, assignment_time := some 0
          , status := Status.in_progress }
      else
        { mkTask "Next" "Follows base" 3 none [] [] [1] none with
            status := Status.blocked }
  , workerOf := fun _ =>
      { mkWorker "Alice" true [] with assigned_tasks := [1] } }

/-- The organization after completing task 1 of `sW6` through the conductor. -/
def sW6x : OrgState :=
  ((handle_task_completion 1 none 2 sW6).getD (sW6, false)).1

theorem updTask_taskOf_self (i : Nat) (f : PyTask → PyTask) (s : OrgState) :
    (updTask i f s).taskOf i = f (s.taskOf i) := by
  simp [updTask]

theorem updTask_taskOf_ne (i j : Nat) (f : PyTask → PyTask) (s : OrgState)
    (h : j ≠ i) : (updTask i f s).taskOf j = s.taskOf j := by
  simp [updTask, h]

theorem updWorker_workerOf_self (i : Nat) (f : PyWorker → PyWorker) (s : OrgState) :
    (updWorker i f s).workerOf i = f (s.workerOf i) := by
  simp [updWorker]

theorem updTask_workers (i : Nat) (f : PyTask → PyTask) (s : OrgState) :
    (updTask i f s).workers = s.workers := rfl

theorem updTask_tasks (i : Nat) (f : PyTask → PyTask) (s : OrgState) :
    (updTask i f s).tasks = s.tasks := rfl

theorem updTask_completed (i : Nat) (f : PyTask → PyTask) (s : OrgState) :
    (updTask i f s).completed_tasks = s.completed_tasks := rfl

theorem updWorker_taskOf (i : Nat) (f : PyWorker → PyWorker) (s : OrgState) :
    (updWorker i f s).taskOf = s.taskOf := rfl

theorem updWorker_tasks (i : Nat) (f : PyWorker → PyWorker) (s : OrgState) :
    (updWorker i f s).tasks = s.tasks := rfl

theorem updWorker_completed (i : Nat) (f : PyWorker → PyWorker) (s : OrgState) :
    (updWorker i f s).completed_tasks = s.completed_tasks := rfl

/-- C5: completing a task with no assigned worker returns the failure flag
`False` without raising, and returns the organization state entirely
unchanged: the very same `OrgState` (hence the task's status, timestamps and
notes, every worker's task lists and metrics, and the `tasks` /
`completed_tasks` collections are all untouched). -/
theorem c5_unassigned_completion_noop (s : OrgState) (t : Nat)
    (feedback : Option String) (now : ℚ)
    (h : (s.taskOf t).assigned_worker = none) :
    handle_task_completion t feedback now s = some (s, false) := by
  simp only [handle_task_completion, h]

/-- Witness for C5 at a concrete organization: completing the unassigned
task 9 of `sEx` fails softly and leaves the state untouched. -/
theorem c5_witness :
    handle_task_completion 9 (some "good job") 3 sEx = some (sEx, false) :=
  c5_unassigned_completion_noop sEx 9 (some "good job") 3 rfl

/-- C9: Worker.complete_task is a complete no-op when the task is not among
that worker's `assigned_tasks`: the resulting state is the very same
`OrgState`, so the task's status and `completed_time`, the worker's
`completed_tasks`, `task_history`, performance metrics and
`experience_description` are all unchanged, and the task is not marked
completed by this path. -/
theorem c9_complete_task_noop (s : OrgState) (w t : Nat) (now : ℚ)
    (h : t ∉ (s.workerOf w).assigned_tasks) :
    complete_task w t now s = some s := by
  simp only [complete_task, if_neg h]

/-- Witness for C9 at a concrete organization: worker 0 of `sEx` does not
hold task 9, so completing it through the worker changes nothing. -/
theorem c9_witness : complete_task 0 9 7 sEx = some sEx :=
  c9_complete_task_noop sEx 0 9 7 (by decide)

/-- C1 (failing input): with worker "Alice" registered and an LLM response
whose last line is "Bob", `assign_new_task` returns no worker and leaves the
freshly added task 5 unassigned — the claimed first-worker fallback does not
happen (the bare `except` it lives in is never reached by a name mismatch).
The second conjunct shows the matching half does work: a response whose last
line is exactly "Alice" assigns task 5 to worker 0 and returns it. -/
theorem c1_mismatch_leaves_unassigned :
    (assign_new_task 5 "REASONING:\nbecause\nASSIGNMENT:\nBob" 0 sC1).map
        (fun p => (p.2, (p.1.taskOf 5).assigned_worker, p.1.workers)) =
      some (none, none, [0]) ∧
    (assign_new_task 5 "REASONING:\nbecause\nASSIGNMENT:\nAlice" 0 sC1).map
        (fun p => (p.2, (p.1.taskOf 5).assigned_worker)) =
      some (some 0, some 0) := by
  decide

/-- C2 (failing input): in `sC2` the snapshot's Unassigned section labels
task 2 as "Task 1" while the Assigned section labels task 1 as "Task 1" —
the rendered text of `get_tasks_txt` carries both conflicting "Task 1"
labels — whereas the batch parser resolves the reference "Task 1" to
`tasks[0] = 1`.  So the snapshot numbering is per assignment-status group,
not positional in `Organization.tasks`, and producer and consumer disagree
as soon as both groups are non-empty. -/
theorem c2_numbering_mismatch :
    snapshot_unassigned sC2 = [(1, 2)] ∧
    snapshot_assigned sC2 = [(1, 1)] ∧
    resolveRef sC2 ("Task 1".data) = some 1 ∧
    hasSub (get_tasks_txt sC2).data ("Task 1: Review code".data) = true ∧
    hasSub (get_tasks_txt sC2).data ("Task 1: Write report".data) = true := by
  with_unfolding_all decide

/-- C3 (counterexample): the partition invariant is not preserved by every
operation.  Starting from an empty organization, add task 7, assign it,
complete it (archiving it), then call `add_task` on it again: task 7 is now
in `tasks` and in `completed_tasks` at once. -/
theorem c3_counterexample :
    sC3d.map (fun s => (s.tasks.contains 7, s.completed_tasks.contains 7)) =
      some (true, true) := by
  decide

/-- C6 (counterexample): after completing task 1, task 2 — which listed
task 1 twice — still lists it once (Python `list.remove` drops only the
first occurrence), and task 3 — unassigned, whose only incomplete dependency
was task 1, but whose status was already `completed` — does not end up
`pending`.  The completion itself succeeds (flag `true`). -/
theorem c6_counterexample :
    (handle_task_completion 1 none 2 sC6).map
        (fun p => (p.2, (p.1.taskOf 2).dependencies, (p.1.taskOf 3).status)) =
      some (true, [1], Status.completed) := by
  decide

/-- C7 (counterexample): with the tie state `sC7`, both workers score the
same; `[1, 0]` enumerates the candidate set `{0, 1}` (it is a permutation of
the registration list), and under that set-iteration order the code assigns
the tie to worker 1 ("Bob"), not to the first-registered worker 0 — Python
set iteration order is unspecified, so registration-order tie-breaking is
not guaranteed. -/
theorem c7_counterexample :
    (auto_assign_task [1, 0] 3 0 sC7).2 = some 1 ∧
    sC7.workers = [0, 1] ∧
    List.Perm [1, 0] sC7.workers ∧
    autoScore sC7 0 (sC7.taskOf 3) 0 = autoScore sC7 0 (sC7.taskOf 3) 1 ∧
    (1 : Nat) ≠ 0 := by
  with_unfolding_all decide

theorem foldl_updateMetrics_mean (ds : List ℚ) :
    ∀ (σ : ℚ) (n : Nat), (n = 0 → σ = 0) →
      ds.foldl updateMetrics (σ / n, n) =
        ((σ + ds.sum) / (n + ds.length), n + ds.length) := by
  induction ds with
  | nil =>
    intro σ n _
    simp
  | cons d rest ih =>
    intro σ n h
    have hstep : updateMetrics (σ / (n : ℚ), n) d = ((σ + d) / ((n + 1 : Nat) : ℚ), n + 1) := by
      rcases Nat.eq_zero_or_pos n with hn | hn
      · subst hn
        have hσ : σ = 0 := h rfl
        subst hσ
        norm_num [updateMetrics]
      · have hn' : (n : ℚ) ≠ 0 := Nat.cast_ne_zero.mpr (Nat.pos_iff_ne_zero.mp hn)
        simp only [updateMetrics]
        rw [div_mul_cancel₀ _ hn']
        push_cast
        ring_nf
    rw [List.foldl_cons, hstep, ih (σ + d) (n + 1) (by omega)]
    refine Prod.ext ?_ ?_
    · show (σ + d + rest.sum) / (((n + 1 : Nat) : ℚ) + rest.length) =
        (σ + (d :: rest).sum) / ((n : ℚ) + (d :: rest).length)
      rw [List.sum_cons, List.length_cons]
      push_cast
      ring_nf
    · show n + 1 + rest.length = n + (d :: rest).length
      rw [List.length_cons]
      omega

/-- C8: on a completion that actually happens (the task is held by the
worker and has an assignment time), the worker's `tasks_completed` is
incremented by one and `avg_completion_time` is recomputed exactly as
`(old_avg * old_count + this_completion_hours) / (old_count + 1)`; moreover
iterating that metric update from the initial `(0, 0)` over any sequence of
completion durations yields exactly the arithmetic mean of all durations
(not a decayed average). -/
theorem c8_exact_running_average (s : OrgState) (w t : Nat) (now a : ℚ)
    (ht : t ∈ (s.workerOf w).assigned_tasks)
    (ha : (s.taskOf t).assignment_time = some a) :
    (∃ s1, complete_task w t now s = some s1 ∧
      (s1.workerOf w).tasks_completed = (s.workerOf w).tasks_completed + 1 ∧
      (s1.workerOf w).avg_completion_time =
        ((s.workerOf w).avg_completion_time * (s.workerOf w).tasks_completed + (now - a)) /
          ((s.workerOf w).tasks_completed + 1)) ∧
    ∀ ds : List ℚ, ds.foldl updateMetrics (0, 0) = (ds.sum / ds.length, ds.length) := by
  constructor
  · simp only [complete_task, if_pos ht, ha]
    refine ⟨_, rfl, ?_, ?_⟩
    · simp [updWorker, updTask, updateMetrics]
    · simp [updWorker, updTask, updateMetrics]
  · intro ds
    have h := foldl_updateMetrics_mean ds 0 0 (fun _ => rfl)
    simpa using h

/-- Witness for C8: completing task 4 of `sEx` (assigned at time 0,
completed at time 4) bumps worker 0's count from 0 to 1 with the average
recomputed by the exact formula, and the running average over the durations
4 then 6 is exactly 5. -/
theorem c8_witness :
    (∃ s1, complete_task 0 4 4 sEx = some s1 ∧
      (s1.workerOf 0).tasks_completed = (sEx.workerOf 0).tasks_completed + 1 ∧
      (s1.workerOf 0).avg_completion_time =
        ((sEx.workerOf 0).avg_completion_time * (sEx.workerOf 0).tasks_completed + ((4 : ℚ) - 0)) /
          ((sEx.workerOf 0).tasks_completed + 1)) ∧
    [(4 : ℚ), 6].foldl updateMetrics (0, 0) = (5, 2) := by
  have h := c8_exact_running_average sEx 0 4 4 0 (by decide) rfl
  refine ⟨h.1, ?_⟩
  have h2 := h.2 [4, 6]
  simp only [List.sum_cons, List.sum_nil, List.length_cons, List.length_nil] at h2
  rw [h2]
  norm_num

theorem dictSet_dictGet_self (d : List (String × List Nat)) (k : String) (v : List Nat) :
    dictGet (dictSet d k v) k = some v := by
  induction d with
  | nil => simp [dictSet, dictGet]
  | cons p rest ih =>
    obtain ⟨k0, v0⟩ := p
    by_cases h : k0 = k
    · subst h
      simp [dictSet, dictGet]
    · simp only [dictSet, if_neg h, dictGet]
      exact ih

theorem dictSet_dictGet_ne (d : List (String × List Nat)) (k k' : String) (v : List Nat)
    (h : k ≠ k') : dictGet (dictSet d k v) k' = dictGet d k' := by
  induction d with
  | nil => simp [dictSet, dictGet, h]
  | cons p rest ih =>
    obtain ⟨k0, v0⟩ := p
    by_cases h0 : k0 = k
    · subst h0
      simp only [dictSet, if_pos rfl, dictGet]
      rw [if_neg h, if_neg h]
    · simp only [dictSet, if_neg h0, dictGet]
      by_cases hk0 : k0 = k'
      · rw [if_pos hk0, if_pos hk0]
      · rw [if_neg hk0, if_neg hk0]
        exact ih

theorem processLines_go (s : OrgState) (wn : String) :
    ∀ (lines : List (List Char)) (d : List (String × List Nat)),
      dictGet (lines.foldl (stepLine s) d) wn =
        match lastMatch s wn lines with
        | some l => some (parseTaskRefs s (lineTaskStr l))
        | none => dictGet d wn := by
  intro lines
  induction lines with
  | nil =>
    intro d
    simp [lastMatch]
  | cons l rest ih =>
    intro d
    rw [List.foldl_cons, ih (stepLine s d l)]
    cases hlm : lastMatch s wn rest with
    | some r => simp [lastMatch, hlm]
    | none =>
      simp only [lastMatch, hlm]
      unfold stepLine
      cases hlw : lineWorkerName s l with
      | none => simp
      | some wn' =>
        by_cases h : wn' = wn
        · subst h
          simp [dictSet_dictGet_self]
        · rw [if_neg (show ¬ (some wn' = some wn) by simp [h])]
          exact dictSet_dictGet_ne d wn' wn _ h

/-- C10: in the line loop of `_parse_assignment_response`, the dict entry for
a worker name is exactly the task list parsed from the last line of the
section whose left side resolves to that name — earlier lines for the same
worker are overwritten, never merged (and a name no line resolves to gets no
entry). -/
theorem c10_last_line_wins (s : OrgState) (wn : String) (lines : List (List Char)) :
    dictGet (processLines s lines) wn =
      (lastMatch s wn lines).map (fun l => parseTaskRefs s (lineTaskStr l)) := by
  have h := processLines_go s wn lines []
  unfold processLines
  cases hlm : lastMatch s wn lines with
  | some r =>
    rw [hlm] at h
    simpa using h
  | none =>
    rw [hlm] at h
    simpa using h

theorem parseRefList_eq_filterMap (s : OrgState) (refs : List (List Char)) :
    parseRefList s refs = refs.filterMap (resolveRef s) := by
  suffices h : ∀ acc : List Nat,
      refs.foldl (fun acc ref =>
        match resolveRef s ref with
        | some t => acc ++ [t]
        | none => acc) acc = acc ++ refs.filterMap (resolveRef s) by
    simpa [parseRefList] using h []
  induction refs with
  | nil =>
    intro acc
    simp
  | cons r rest ih =>
    intro acc
    rw [List.foldl_cons]
    cases hr : resolveRef s r with
    | none =>
      simp only [hr]
      rw [ih]
      simp [List.filterMap_cons, hr]
    | some t =>
      simp only [hr]
      rw [ih]
      simp [List.filterMap_cons, hr]

theorem resolveRef_in_range (s : OrgState) (ref : List Char) (t : Nat)
    (h : resolveRef s ref = some t) :
    ∃ k : Nat, 1 ≤ k ∧ k ≤ s.tasks.length ∧ s.tasks.get? (k - 1) = some t := by
  unfold resolveRef at h
  dsimp only at h
  split at h
  · split at h
    · next k _ =>
      split at h
      · next hkr =>
        exact ⟨k.toNat, by omega, by omega, h⟩
      · exact absurd h (by simp)
    · exact absurd h (by simp)
  · exact absurd h (by simp)

theorem dictSet_mem (d : List (String × List Nat)) (k : String) (v : List Nat)
    (p : String × List Nat) (h : p ∈ dictSet d k v) : p ∈ d ∨ p = (k, v) := by
  induction d with
  | nil => simpa [dictSet] using h
  | cons q rest ih =>
    obtain ⟨k0, v0⟩ := q
    by_cases h0 : k0 = k
    · subst h0
      simp only [dictSet, if_pos rfl] at h
      rcases List.mem_cons.mp h with rfl | hr
      · right; rfl
      · left; exact List.mem_cons_of_mem _ hr
    · simp only [dictSet, if_neg h0] at h
      rcases List.mem_cons.mp h with rfl | hr
      · left; exact List.mem_cons_self _ _
      · rcases ih hr with h1 | h2
        · left; exact List.mem_cons_of_mem _ h1
        · right; exact h2

theorem processLines_mem (s : OrgState) :
    ∀ (lines : List (List Char)) (d : List (String × List Nat)) (p : String × List Nat),
      p ∈ lines.foldl (stepLine s) d →
      p ∈ d ∨ ∃ l, p.2 = parseTaskRefs s (lineTaskStr l) := by
  intro lines
  induction lines with
  | nil =>
    intro d p h
    exact Or.inl h
  | cons l rest ih =>
    intro d p h
    rw [List.foldl_cons] at h
    rcases ih (stepLine s d l) p h with hd | he
    · cases hlw : lineWorkerName s l with
      | none =>
        simp only [stepLine, hlw] at hd
        exact Or.inl hd
      | some wn =>
        simp only [stepLine, hlw] at hd
        rcases dictSet_mem d wn _ p hd with h1 | h2
        · exact Or.inl h1
        · right
          exact ⟨l, by rw [h2]⟩
    · exact Or.inr he

/-- C4: batch-parse robustness.  (i) The parse is a total function (the
try/except of the source never propagates in this model) and every task id
appearing in any value of the returned dict comes from a reference that
parsed to an integer `k` with `1 ≤ k ≤ len(tasks)` and resolves to
`tasks[k - 1]` — references are accepted only in range.  (ii) The reference
loop of a line is the filterMap of an independent per-reference resolver,
so (iii) a skipped (unparseable or out-of-range) reference leaves the
parses of all other references on the same line untouched. -/
theorem c4_batch_parse_robust (s : OrgState) (response : String)
    (r1 r2 : List (List Char)) (bad : List Char)
    (hbad : resolveRef s bad = none) :
    (∀ p ∈ parse_assignment_response s response, ∀ t ∈ p.2,
        ∃ k : Nat, 1 ≤ k ∧ k ≤ s.tasks.length ∧ s.tasks.get? (k - 1) = some t) ∧
    (∀ refs : List (List Char), parseRefList s refs = refs.filterMap (resolveRef s)) ∧
    parseRefList s (r1 ++ bad :: r2) = parseRefList s (r1 ++ r2) := by
  refine ⟨?_, parseRefList_eq_filterMap s, ?_⟩
  · intro p hp t ht
    unfold parse_assignment_response at hp
    split at hp
    · split at hp
      · unfold processLines at hp
        rcases processLines_mem s _ [] p hp with h0 | ⟨l, hl⟩
        · simp at h0
        · rw [hl] at ht
          rw [parseTaskRefs, parseRefList_eq_filterMap] at ht
          rcases List.mem_filterMap.mp ht with ⟨ref, _, hres⟩
          exact resolveRef_in_range s ref t hres
      · simp at hp
    · simp at hp
  · rw [parseRefList_eq_filterMap, parseRefList_eq_filterMap]
    simp [List.filterMap_append, List.filterMap_cons, hbad]

/-- Witness for C4 at a concrete organization and response: all three parts
of the robustness theorem at `sC4` ("Cara", tasks 11, 12, 13), with the
out-of-range reference " Task 9 " as the skipped one; concretely the
response "ASSIGNMENTS:\nCara: Task 1, Task 9, Task 2" yields exactly
the dict binding "Cara" to tasks 11 and 12 — "Task 9" is dropped without
affecting "Task 1" or "Task 2". -/
theorem c4_witness :
    ((∀ p ∈ parse_assignment_response sC4 "ASSIGNMENTS:\nCara: Task 1, Task 9, Task 2",
        ∀ t ∈ p.2,
        ∃ k : Nat, 1 ≤ k ∧ k ≤ sC4.tasks.length ∧ sC4.tasks.get? (k - 1) = some t) ∧
      (∀ refs : List (List Char), parseRefList sC4 refs = refs.filterMap (resolveRef sC4)) ∧
      parseRefList sC4 (["Task 1".data] ++ " Task 9 ".data :: ["task 2".data]) =
        parseRefList sC4 (["Task 1".data] ++ ["task 2".data])) ∧
    parse_assignment_response sC4 "ASSIGNMENTS:\nCara: Task 1, Task 9, Task 2" =
      [("Cara", [11, 12])] := by
  refine ⟨c4_batch_parse_robust sC4 _ _ _ _ (by with_unfolding_all decide), ?_⟩
  with_unfolding_all decide

theorem foldl_best_spec (f : Nat → ℚ) :
    ∀ (l : List Nat) (b : Option Nat × ℚ),
      (l.foldl (fun b w => if f w > b.2 then (some w, f w) else b) b = b ∧
        ∀ v ∈ l, f v ≤ b.2) ∨
      (∃ w l1 l2, l = l1 ++ w :: l2 ∧
        l.foldl (fun b w => if f w > b.2 then (some w, f w) else b) b = (some w, f w) ∧
        f w > b.2 ∧ (∀ v ∈ l1, f v < f w) ∧ (∀ v ∈ l2, f v ≤ f w)) := by
  intro l
  induction l with
  | nil =>
    intro b
    left
    exact ⟨rfl, by simp⟩
  | cons x rest ih =>
    intro b
    rw [List.foldl_cons]
    by_cases hx : f x > b.2
    · rw [if_pos hx]
      rcases ih (some x, f x) with ⟨h1, h2⟩ | ⟨w, l1, l2, hsplit, hfold, hgt, hl1, hl2⟩
      · right
        refine ⟨x, [], rest, by simp, ?_, hx, by simp, by simpa using h2⟩
        rw [h1]
      · right
        refine ⟨w, x :: l1, l2, by rw [hsplit]; rfl, hfold, lt_trans hx hgt, ?_, hl2⟩
        intro v hv
        rcases List.mem_cons.mp hv with rfl | hv'
        · exact hgt
        · exact hl1 v hv'
    · rw [if_neg hx]
      rcases ih b with ⟨h1, h2⟩ | ⟨w, l1, l2, hsplit, hfold, hgt, hl1, hl2⟩
      · left
        refine ⟨h1, ?_⟩
        intro v hv
        rcases List.mem_cons.mp hv with rfl | hv'
        · exact le_of_not_lt hx
        · exact h2 v hv'
      · right
        refine ⟨w, x :: l1, l2, by rw [hsplit]; rfl, hfold, hgt, ?_, hl2⟩
        intro v hv
        rcases List.mem_cons.mp hv with rfl | hv'
        · exact lt_of_le_of_lt (le_of_not_lt hx) hgt
        · exact hl1 v hv'

/-- C7 (amended): the score of each candidate is `autoScore`
(`1 / (1 + workload) * urgency * skill boost`, with boost 1.5 exactly when a
required skill is shared or no skill is required — this is the definition);
the assigned worker is the one attaining the strictly greatest score, the
first *in the set-iteration order* among equals, and its assignment applies
the worker-side `assign_task` followed by `update_status`; with no workers
the call returns the state unchanged and no worker, raising nothing.  What
the original claim gets wrong is the tie-break: Python iterates
`set(self.workers)`, whose order is unspecified and need not be registration
order, so a tie can go to a later-registered worker (see the
counterexample). -/
theorem c7_auto_assign_first_max (s : OrgState) (now : ℚ) (t : Nat) (order : List Nat) :
    (order = [] → auto_assign_task order t now s = (s, none)) ∧
    (∀ w, (auto_assign_task order t now s).2 = some w →
      ∃ l1 l2, order = l1 ++ w :: l2 ∧
        autoScore s now (s.taskOf t) w > -1 ∧
        (∀ v ∈ l1, autoScore s now (s.taskOf t) v < autoScore s now (s.taskOf t) w) ∧
        (∀ v ∈ l2, autoScore s now (s.taskOf t) v ≤ autoScore s now (s.taskOf t) w) ∧
        (auto_assign_task order t now s).1 = update_status t (assign_task w t now s)) := by
  constructor
  · intro h
    subst h
    rfl
  · intro w hw
    rcases foldl_best_spec (autoScore s now (s.taskOf t)) order (none, -1) with
      ⟨h1, _⟩ | ⟨w', l1, l2, hsplit, hfold, hgt, hl1, hl2⟩
    · have hb : bestWorker (autoScore s now (s.taskOf t)) order = (none, -1) := h1
      unfold auto_assign_task at hw
      rw [hb] at hw
      simp at hw
    · have hb : bestWorker (autoScore s now (s.taskOf t)) order =
          (some w', autoScore s now (s.taskOf t) w') := hfold
      unfold auto_assign_task at hw ⊢
      rw [hb] at hw ⊢
      obtain rfl : w' = w := by simpa using hw
      exact ⟨l1, l2, hsplit, by simpa using hgt, hl1, hl2, rfl⟩

/-- Witness for C7: the empty-worker no-op at `sC7`, and the characterization
applied to the concrete tie of the counterexample (set order `[1, 0]`,
chosen worker 1: nothing precedes it in that order and worker 0 after it
scores no higher). -/
theorem c7_witness :
    (auto_assign_task [] 3 0 sC7 = (sC7, none)) ∧
    ∃ l1 l2, [1, 0] = l1 ++ 1 :: l2 ∧
      autoScore sC7 0 (sC7.taskOf 3) 1 > -1 ∧
      (∀ v ∈ l1, autoScore sC7 0 (sC7.taskOf 3) v < autoScore sC7 0 (sC7.taskOf 3) 1) ∧
      (∀ v ∈ l2, autoScore sC7 0 (sC7.taskOf 3) v ≤ autoScore sC7 0 (sC7.taskOf 3) 1) ∧
      (auto_assign_task [1, 0] 3 0 sC7).1 = update_status 3 (assign_task 1 3 0 sC7) :=
  ⟨(c7_auto_assign_first_max sC7 0 3 []).1 rfl,
   (c7_auto_assign_first_max sC7 0 3 [1, 0]).2 1 (by with_unfolding_all decide)⟩

theorem complete_task_lists (w t : Nat) (now : ℚ) (s s' : OrgState)
    (h : complete_task w t now s = some s') :
    s'.tasks = s.tasks ∧ s'.completed_tasks = s.completed_tasks := by
  unfold complete_task at h
  split at h
  · split at h
    · exact absurd h (by simp)
    · simp only [Option.some.injEq] at h
      rw [← h]
      exact ⟨rfl, rfl⟩
  · simp only [Option.some.injEq] at h
    rw [← h]
    exact ⟨rfl, rfl⟩

theorem dep_step_lists (t : Nat) (s : OrgState) (d : Nat) :
    (dep_step t s d).tasks = s.tasks ∧ (dep_step t s d).completed_tasks = s.completed_tasks := by
  unfold dep_step dep_recheck
  split
  · split
    · exact ⟨rfl, rfl⟩
    · exact ⟨rfl, rfl⟩
  · exact ⟨rfl, rfl⟩

theorem foldl_dep_step_lists (t : Nat) :
    ∀ (l : List Nat) (s : OrgState),
      (l.foldl (dep_step t) s).tasks = s.tasks ∧
      (l.foldl (dep_step t) s).completed_tasks = s.completed_tasks := by
  intro l
  induction l with
  | nil =>
    intro s
    exact ⟨rfl, rfl⟩
  | cons d rest ih =>
    intro s
    rw [List.foldl_cons]
    obtain ⟨h1, h2⟩ := ih (dep_step t s d)
    obtain ⟨g1, g2⟩ := dep_step_lists t s d
    exact ⟨h1.trans g1, h2.trans g2⟩

theorem dep_loop_lists (t : Nat) (s : OrgState) :
    (dep_loop t s).tasks = s.tasks ∧ (dep_loop t s).completed_tasks = s.completed_tasks :=
  foldl_dep_step_lists t s.tasks s

theorem handle_lists (t : Nat) (fb : Option String) (now : ℚ) (s s' : OrgState) (b : Bool)
    (h : handle_task_completion t fb now s = some (s', b)) :
    (s'.tasks = s.tasks ∧ s'.completed_tasks = s.completed_tasks) ∨
    (t ∈ s.tasks ∧ s'.tasks = s.tasks.erase t ∧
      s'.completed_tasks = s.completed_tasks ++ [t]) := by
  unfold handle_task_completion at h
  cases hw : (s.taskOf t).assigned_worker with
  | none =>
    rw [hw] at h
    simp only [Option.some.injEq, Prod.mk.injEq] at h
    left
    rw [← h.1]
    exact ⟨rfl, rfl⟩
  | some w =>
    rw [hw] at h
    dsimp only at h
    cases hct : complete_task w t now s with
    | none =>
      rw [hct] at h
      exact absurd h (by simp)
    | some s1 =>
      rw [hct] at h
      dsimp only at h
      obtain ⟨ht1, ht2⟩ := complete_task_lists w t now s s1 hct
      by_cases hmem : t ∈ s1.tasks
      · rw [if_pos hmem] at h
        simp only [Option.some.injEq, Prod.mk.injEq] at h
        obtain ⟨hs', _⟩ := h
        have hs3 :
            ∀ s3 : OrgState, s3.tasks = s1.tasks.erase t →
              s3.completed_tasks = s1.completed_tasks ++ [t] →
              s' = dep_loop t s3 →
              s'.tasks = s.tasks.erase t ∧ s'.completed_tasks = s.completed_tasks ++ [t] := by
          intro s3 e1 e2 e3
          obtain ⟨d1, d2⟩ := dep_loop_lists t s3
          rw [e3, d1, d2, e1, e2, ht1, ht2]
          exact ⟨rfl, rfl⟩
        right
        refine ⟨ht1 ▸ hmem, ?_⟩
        cases fb with
        | none => exact hs3 _ rfl rfl hs'.symm
        | some f =>
          dsimp only at hs'
          by_cases hf : f = ""
          · rw [if_pos hf] at hs'
            exact hs3 _ rfl rfl hs'.symm
          · rw [if_neg hf] at hs'
            exact hs3 (add_note t ("Completion feedback: " ++ f) now
              { s1 with tasks := s1.tasks.erase t
                      , completed_tasks := s1.completed_tasks ++ [t] }) rfl rfl hs'.symm
      · rw [if_neg hmem] at h
        simp only [Option.some.injEq, Prod.mk.injEq] at h
        obtain ⟨hs', _⟩ := h
        have hs3 :
            ∀ s3 : OrgState, s3.tasks = s1.tasks →
              s3.completed_tasks = s1.completed_tasks →
              s' = dep_loop t s3 →
              s'.tasks = s.tasks ∧ s'.completed_tasks = s.completed_tasks := by
          intro s3 e1 e2 e3
          obtain ⟨d1, d2⟩ := dep_loop_lists t s3
          rw [e3, d1, d2, e1, e2, ht1, ht2]
          exact ⟨rfl, rfl⟩
        left
        cases fb with
        | none => exact hs3 _ rfl rfl hs'.symm
        | some f =>
          dsimp only at hs'
          by_cases hf : f = ""
          · rw [if_pos hf] at hs'
            exact hs3 _ rfl rfl hs'.symm
          · rw [if_neg hf] at hs'
            exact hs3 (add_note t ("Completion feedback: " ++ f) now s1) rfl rfl hs'.symm

theorem relStep_lists (t r : Nat) (st : OrgState) :
    ((if r ∉ st.tasks ∧ r ∉ st.completed_tasks then st
      else if t ∉ (st.taskOf r).related_tasks then
        updTask r (fun tk => { tk with related_tasks := tk.related_tasks ++ [t] }) st
      else st).tasks = st.tasks ∧
     (if r ∉ st.tasks ∧ r ∉ st.completed_tasks then st
      else if t ∉ (st.taskOf r).related_tasks then
        updTask r (fun tk => { tk with related_tasks := tk.related_tasks ++ [t] }) st
      else st).completed_tasks = st.completed_tasks) := by
  split
  · exact ⟨rfl, rfl⟩
  · split
    · exact ⟨rfl, rfl⟩
    · exact ⟨rfl, rfl⟩

theorem relFold_lists (t : Nat) :
    ∀ (rl : List Nat) (st : OrgState),
      (rl.foldl (fun st r =>
        if r ∉ st.tasks ∧ r ∉ st.completed_tasks then st
        else if t ∉ (st.taskOf r).related_tasks then
          updTask r (fun tk => { tk with related_tasks := tk.related_tasks ++ [t] }) st
        else st) st).tasks = st.tasks ∧
      (rl.foldl (fun st r =>
        if r ∉ st.tasks ∧ r ∉ st.completed_tasks then st
        else if t ∉ (st.taskOf r).related_tasks then
          updTask r (fun tk => { tk with related_tasks := tk.related_tasks ++ [t] }) st
        else st) st).completed_tasks = st.completed_tasks := by
  intro rl
  induction rl with
  | nil =>
    intro st
    exact ⟨rfl, rfl⟩
  | cons r rest ih =>
    intro st
    rw [List.foldl_cons]
    obtain ⟨h1, h2⟩ := ih (if r ∉ st.tasks ∧ r ∉ st.completed_tasks then st
      else if t ∉ (st.taskOf r).related_tasks then
        updTask r (fun tk => { tk with related_tasks := tk.related_tasks ++ [t] }) st
      else st)
    obtain ⟨g1, g2⟩ := relStep_lists t r st
    exact ⟨h1.trans g1, h2.trans g2⟩

theorem auto_assign_fst_lists (order : List Nat) (t : Nat) (now : ℚ) (s : OrgState) :
    (auto_assign_task order t now s).1.tasks = s.tasks ∧
    (auto_assign_task order t now s).1.completed_tasks = s.completed_tasks := by
  unfold auto_assign_task
  cases (bestWorker (autoScore s now (s.taskOf t)) order).1 with
  | some w => exact ⟨rfl, rfl⟩
  | none => exact ⟨rfl, rfl⟩

theorem add_task_lists (t : Nat) (auto : Bool) (ord : List Nat) (now : ℚ) (s : OrgState) :
    (add_task t auto ord now s).tasks = s.tasks ++ [t] ∧
    (add_task t auto ord now s).completed_tasks = s.completed_tasks := by
  obtain ⟨h1, h2⟩ := relFold_lists t
    (({ s with tasks := s.tasks ++ [t] } : OrgState).taskOf t).related_tasks
    { s with tasks := s.tasks ++ [t] }
  unfold add_task
  cases auto with
  | false => exact ⟨h1, h2⟩
  | true =>
    obtain ⟨g1, g2⟩ := auto_assign_fst_lists ord t now
      ((({ s with tasks := s.tasks ++ [t] } : OrgState).taskOf t).related_tasks.foldl
        (fun st r =>
          if r ∉ st.tasks ∧ r ∉ st.completed_tasks then st
          else if t ∉ (st.taskOf r).related_tasks then
            updTask r (fun tk => { tk with related_tasks := tk.related_tasks ++ [t] }) st
          else st)
        { s with tasks := s.tasks ++ [t] })
    exact ⟨g1.trans h1, g2.trans h2⟩

/-- C3 (amended): the partition of tasks between `Organization.tasks` and
`Organization.completed_tasks` is preserved by the operations *provided
`add_task` is only invoked on fresh tasks* (not already registered or
archived — the counterexample shows the unchecked re-registration of an
archived task breaking the invariant): a fresh `add_task` places the task in
`tasks` and nowhere else, `handle_task_completion` preserves the at-most-once
bound and leaves the set of tasks ever added unchanged (whether it moves the
task or fails softly), and the worker-level operations `assign_task` and
`complete_task` never touch either collection. -/
theorem c3_partition_preserved (s : OrgState) (hInv : partitionInv s) :
    (∀ t auto ord now, t ∉ s.tasks → t ∉ s.completed_tasks →
      partitionInv (add_task t auto ord now s) ∧
      t ∈ (add_task t auto ord now s).tasks ∧
      t ∉ (add_task t auto ord now s).completed_tasks) ∧
    (∀ t fb now s' b, handle_task_completion t fb now s = some (s', b) →
      partitionInv s' ∧
      ∀ u, (u ∈ s.tasks ∨ u ∈ s.completed_tasks) ↔ (u ∈ s'.tasks ∨ u ∈ s'.completed_tasks)) ∧
    (∀ w t now, partitionInv (assign_task w t now s)) ∧
    (∀ w t now s', complete_task w t now s = some s' → partitionInv s') := by
  refine ⟨?_, ?_, ?_, ?_⟩
  · intro t auto ord now ht hc
    obtain ⟨h1, h2⟩ := add_task_lists t auto ord now s
    refine ⟨?_, ?_, ?_⟩
    · intro u
      rw [h1, h2, List.count_append]
      rcases eq_or_ne u t with rfl | hne
      · have e1 : s.tasks.count u = 0 := List.count_eq_zero.mpr ht
        have e2 : s.completed_tasks.count u = 0 := List.count_eq_zero.mpr hc
        simp [e1, e2]
      · have e3 : ([t] : List Nat).count u = 0 := by
          rw [List.count_eq_zero]
          simp [hne]
        have := hInv u
        omega
    · rw [h1]
      exact List.mem_append_right _ (List.mem_singleton.mpr rfl)
    · rw [h2]
      exact hc
  · intro t fb now s' b h
    rcases handle_lists t fb now s s' b h with ⟨h1, h2⟩ | ⟨hmem, h1, h2⟩
    · constructor
      · intro u
        rw [h1, h2]
        exact hInv u
      · intro u
        rw [h1, h2]
    · constructor
      · intro u
        rw [h1, h2, List.count_append]
        rcases eq_or_ne u t with rfl | hne
        · have h3 := hInv u
          have h4 : s.tasks.count u ≠ 0 := fun h0 => (List.count_eq_zero.mp h0) hmem
          have h5 := List.count_erase_self u s.tasks
          have h6 : ([u] : List Nat).count u = 1 := by simp
          omega
        · have h5 := List.count_erase_of_ne hne s.tasks
          have h6 : ([t] : List Nat).count u = 0 := by
            rw [List.count_eq_zero]
            simp [hne]
          have := hInv u
          omega
      · intro u
        rw [h1, h2]
        rcases eq_or_ne u t with rfl | hne
        · constructor
          · intro _
            right
            exact List.mem_append_right _ (List.mem_singleton.mpr rfl)
          · intro _
            left
            exact hmem
        · rw [List.mem_erase_of_ne hne, List.mem_append, List.mem_singleton]
          constructor
          · rintro (hu | hu)
            · exact Or.inl hu
            · exact Or.inr (Or.inl hu)
          · rintro (hu | hu | hu)
            · exact Or.inl hu
            · exact Or.inr hu
            · exact absurd hu hne
  · intro w t now
    intro u
    exact hInv u
  · intro w t now s' hc
    obtain ⟨h1, h2⟩ := complete_task_lists w t now s s' hc
    intro u
    rw [h1, h2]
    exact hInv u

/-- Witness for C3 (amended) at the empty organization `sC3start`: adding the
fresh task 9 preserves the partition and places it exactly in `tasks`. -/
theorem c3_witness :
    partitionInv (add_task 9 false [] 0 sC3start) ∧
    9 ∈ (add_task 9 false [] 0 sC3start).tasks ∧
    9 ∉ (add_task 9 false [] 0 sC3start).completed_tasks :=
  (c3_partition_preserved sC3start (fun u => by simp [sC3start])).1
    9 false [] 0 (by simp [sC3start]) (by simp [sC3start])

theorem update_status_taskOf_self (d : Nat) (s : OrgState) :
    (update_status d s).taskOf d =
      if (s.taskOf d).status = Status.completed then s.taskOf d
      else if is_blocked s (s.taskOf d) then { s.taskOf d with status := Status.blocked }
      else if (s.taskOf d).assigned_worker.isSome then
        { s.taskOf d with status := Status.in_progress }
      else { s.taskOf d with status := Status.pending } := by
  simp [update_status, updTask]

theorem update_status_taskOf_ne (d e : Nat) (s : OrgState) (h : e ≠ d) :
    (update_status d s).taskOf e = s.taskOf e := by
  simp [update_status, updTask, h]

theorem dep_erase_taskOf_self (t d : Nat) (s : OrgState) :
    (dep_erase t d s).taskOf d =
      { s.taskOf d with dependencies := (s.taskOf d).dependencies.erase t } := by
  simp [dep_erase, updTask]

theorem dep_erase_taskOf_ne (t d e : Nat) (s : OrgState) (h : e ≠ d) :
    (dep_erase t d s).taskOf e = s.taskOf e := by
  simp [dep_erase, updTask, h]

/-- The re-check of conductor.py 331-333 is dead code: right after
`update_status` the task can only have status `blocked` if `is_blocked` held
of the erased dependency list, and that blockage is still observable in the
updated state (the update changed no status except possibly this task's own,
to `blocked`, which is itself not `completed`), so the conjunction guarding
the re-check is never true.  Hence one dependency-loop iteration is just the
erase followed by `update_status`, guarded by membership. -/
theorem dep_step_eq (t : Nat) (s : OrgState) (d : Nat) :
    dep_step t s d =
      if t ∈ (s.taskOf d).dependencies then
        update_status d (dep_erase t d s)
      else s := by
  unfold dep_step
  split
  · unfold dep_recheck
    split
    · next hcond =>
      exfalso
      obtain ⟨hnb, hb⟩ := hcond
      rw [update_status_taskOf_self] at hb
      by_cases hc : ((dep_erase t d s).taskOf d).status = Status.completed
      · rw [if_pos hc] at hb
        rw [hc] at hb
        exact absurd hb (by decide)
      · rw [if_neg hc] at hb
        by_cases hblk : is_blocked (dep_erase t d s) ((dep_erase t d s).taskOf d) = true
        · apply hnb
          rw [update_status_taskOf_self, if_neg hc, if_pos hblk]
          unfold is_blocked at hblk ⊢
          rw [List.any_eq_true] at hblk ⊢
          obtain ⟨e, he, hst⟩ := hblk
          by_cases hed : e = d
          · refine ⟨d, hed ▸ he, ?_⟩
            rw [update_status_taskOf_self, if_neg hc, if_pos ?_]
            · simp
            · unfold is_blocked
              rw [List.any_eq_true]
              exact ⟨e, he, hst⟩
          · refine ⟨e, he, ?_⟩
            rw [update_status_taskOf_ne d e _ hed]
            exact hst
        · rw [if_neg hblk] at hb
          by_cases ha : ((dep_erase t d s).taskOf d).assigned_worker.isSome
          · rw [if_pos ha] at hb
            simp at hb
          · rw [if_neg ha] at hb
            simp at hb
    · rfl
  · rfl

theorem update_status_deps (d : Nat) (s : OrgState) :
    ((update_status d s).taskOf d).dependencies = (s.taskOf d).dependencies := by
  rw [update_status_taskOf_self]
  split
  · rfl
  · split
    · rfl
    · split
      · rfl
      · rfl

theorem dep_step_taskOf_ne (t : Nat) (s : OrgState) (d e : Nat) (h : e ≠ d) :
    (dep_step t s d).taskOf e = s.taskOf e := by
  rw [dep_step_eq]
  split
  · rw [update_status_taskOf_ne d e _ h, dep_erase_taskOf_ne t d e _ h]
  · rfl

theorem dep_step_deps_self (t : Nat) (σ : OrgState) (d : Nat) :
    ((dep_step t σ d).taskOf d).dependencies =
      if t ∈ (σ.taskOf d).dependencies then (σ.taskOf d).dependencies.erase t
      else (σ.taskOf d).dependencies := by
  rw [dep_step_eq]
  split
  · rw [update_status_deps, dep_erase_taskOf_self]
  · rfl

theorem dep_step_completed_stays (t : Nat) (s : OrgState) (d e : Nat)
    (h : (s.taskOf e).status = Status.completed) :
    ((dep_step t s d).taskOf e).status = Status.completed := by
  by_cases hed : e = d
  · subst hed
    rw [dep_step_eq]
    split
    · rw [update_status_taskOf_self, dep_erase_taskOf_self]
      rw [if_pos ?_]
      · exact h
      · exact h
    · exact h
  · rw [dep_step_taskOf_ne t s d e hed]
    exact h

theorem foldl_dep_step_notin_fix (t : Nat) :
    ∀ (l : List Nat) (σ : OrgState) (d : Nat),
      t ∉ (σ.taskOf d).dependencies →
      (l.foldl (dep_step t) σ).taskOf d = σ.taskOf d := by
  intro l
  induction l with
  | nil =>
    intro σ d _
    rfl
  | cons e rest ih =>
    intro σ d hd
    rw [List.foldl_cons]
    by_cases hed : e = d
    · subst hed
      have hstep : dep_step t σ e = σ := by
        rw [dep_step_eq, if_neg hd]
      rw [hstep]
      exact ih σ e hd
    · have h1 : (dep_step t σ e).taskOf d = σ.taskOf d :=
        dep_step_taskOf_ne t σ e d (Ne.symm hed)
      rw [ih (dep_step t σ e) d (by rw [h1]; exact hd)]
      exact h1

theorem foldl_dep_step_completed (t : Nat) :
    ∀ (l : List Nat) (σ : OrgState) (e : Nat),
      (σ.taskOf e).status = Status.completed →
      ((l.foldl (dep_step t) σ).taskOf e).status = Status.completed := by
  intro l
  induction l with
  | nil =>
    intro σ e h
    exact h
  | cons d rest ih =>
    intro σ e h
    rw [List.foldl_cons]
    exact ih _ e (dep_step_completed_stays t σ d e h)

theorem foldl_dep_step_removes (t : Nat) :
    ∀ (l : List Nat) (σ : OrgState) (d : Nat),
      d ∈ l →
      (σ.taskOf d).dependencies.count t ≤ 1 →
      t ∉ ((l.foldl (dep_step t) σ).taskOf d).dependencies := by
  intro l
  induction l with
  | nil =>
    intro σ d hd _
    exact absurd hd (List.not_mem_nil d)
  | cons e rest ih =>
    intro σ d hd hcount
    rw [List.foldl_cons]
    by_cases hed : e = d
    · subst hed
      by_cases hin : t ∈ (σ.taskOf e).dependencies
      · have hout : t ∉ ((dep_step t σ e).taskOf e).dependencies := by
          rw [dep_step_deps_self, if_pos hin]
          have hpos : 0 < (σ.taskOf e).dependencies.count t := List.count_pos_iff.mpr hin
          have hc0 : ((σ.taskOf e).dependencies.erase t).count t = 0 := by
            rw [List.count_erase_self]
            omega
          exact List.count_eq_zero.mp hc0
        rw [foldl_dep_step_notin_fix t rest _ e hout]
        exact hout
      · have hstep : dep_step t σ e = σ := by
          rw [dep_step_eq, if_neg hin]
        rw [hstep, foldl_dep_step_notin_fix t rest σ e hin]
        exact hin
    · rcases List.mem_cons.mp hd with h1 | hdr
      · exact absurd h1.symm hed
      · refine ih (dep_step t σ e) d hdr ?_
        rw [dep_step_taskOf_ne t σ e d (Ne.symm hed)]
        exact hcount

theorem foldl_dep_step_status (t : Nat) :
    ∀ (l : List Nat) (σ : OrgState) (d : Nat),
      d ∈ l →
      t ∈ (σ.taskOf d).dependencies →
      (σ.taskOf d).dependencies.count t ≤ 1 →
      (∀ e ∈ (σ.taskOf d).dependencies, e ≠ t → (σ.taskOf e).status = Status.completed) →
      (σ.taskOf d).status ≠ Status.completed →
      ((l.foldl (dep_step t) σ).taskOf d).status =
        (if (σ.taskOf d).assigned_worker.isSome then Status.in_progress
         else Status.pending) := by
  intro l
  induction l with
  | nil =>
    intro σ d hd
    exact absurd hd (List.not_mem_nil d)
  | cons e rest ih =>
    intro σ d hd hin hcount hdeps hnc
    rw [List.foldl_cons]
    by_cases hed : e = d
    · subst hed
      have hstat : ((dep_step t σ e).taskOf e).status =
          (if (σ.taskOf e).assigned_worker.isSome then Status.in_progress
           else Status.pending) := by
        rw [dep_step_eq, if_pos hin, update_status_taskOf_self, dep_erase_taskOf_self]
        rw [if_neg ?_, if_neg ?_]
        · by_cases ha : (σ.taskOf e).assigned_worker.isSome
          · rw [if_pos ha, if_pos ha]
          · rw [if_neg ha, if_neg ha]
        · intro hblk
          unfold is_blocked at hblk
          rw [List.any_eq_true] at hblk
          obtain ⟨x, hx, hxs⟩ := hblk
          have hx' : x ∈ (σ.taskOf e).dependencies.erase t := hx
          have hxt : x ≠ t := by
            intro hh
            subst hh
            have hpos : 0 < (σ.taskOf e).dependencies.count x := List.count_pos_iff.mpr hin
            have hc0 : ((σ.taskOf e).dependencies.erase x).count x = 0 := by
              rw [List.count_erase_self]
              omega
            exact (List.count_eq_zero.mp hc0) hx'
          have hxd : x ∈ (σ.taskOf e).dependencies := List.mem_of_mem_erase hx'
          have hxe : x ≠ e := by
            intro hh
            subst hh
            exact hnc (hdeps x hxd hxt)
          have hxc : ((dep_erase t e σ).taskOf x).status = Status.completed := by
            rw [dep_erase_taskOf_ne t e x _ hxe]
            exact hdeps x hxd hxt
          simp [hxc] at hxs
        · exact hnc
      have hout : t ∉ ((dep_step t σ e).taskOf e).dependencies := by
        rw [dep_step_deps_self, if_pos hin]
        have hpos : 0 < (σ.taskOf e).dependencies.count t := List.count_pos_iff.mpr hin
        have hc0 : ((σ.taskOf e).dependencies.erase t).count t = 0 := by
          rw [List.count_erase_self]
          omega
        exact List.count_eq_zero.mp hc0
      rw [foldl_dep_step_notin_fix t rest _ e hout]
      exact hstat
    · rcases List.mem_cons.mp hd with h1 | hdr
      · exact absurd h1.symm hed
      · have htr : (dep_step t σ e).taskOf d = σ.taskOf d :=
          dep_step_taskOf_ne t σ e d (Ne.symm hed)
        refine (ih (dep_step t σ e) d hdr ?_ ?_ ?_ ?_).trans ?_
        · rw [htr]
          exact hin
        · rw [htr]
          exact hcount
        · intro x hx hxt
          rw [htr] at hx
          exact dep_step_completed_stays t σ e x (hdeps x hx hxt)
        · rw [htr]
          exact hnc
        · rw [htr]

theorem complete_task_taskOf (w t : Nat) (now : ℚ) (s s' : OrgState)
    (h : complete_task w t now s = some s') :
    (∀ x, (s'.taskOf x).dependencies = (s.taskOf x).dependencies ∧
          (s'.taskOf x).assigned_worker = (s.taskOf x).assigned_worker) ∧
    (∀ x, x ≠ t → s'.taskOf x = s.taskOf x) ∧
    (∀ x, (s.taskOf x).status = Status.completed →
      (s'.taskOf x).status = Status.completed) := by
  unfold complete_task at h
  split at h
  · split at h
    · exact absurd h (by simp)
    · simp only [Option.some.injEq] at h
      subst h
      refine ⟨?_, ?_, ?_⟩
      · intro x
        by_cases hx : x = t
        · subst hx
          constructor <;> simp [updWorker, updTask]
        · constructor <;> simp [updWorker, updTask, hx]
      · intro x hx
        simp [updWorker, updTask, hx]
      · intro x hcx
        by_cases hx : x = t
        · subst hx
          simp [updWorker, updTask]
        · simp only [updWorker, updTask]
          simp [hx]
          exact hcx
  · simp only [Option.some.injEq] at h
    subst h
    exact ⟨fun x => ⟨rfl, rfl⟩, fun x _ => rfl, fun x hcx => hcx⟩

theorem add_note_taskOf (t0 : Nat) (n : String) (now : ℚ) (s : OrgState) (x : Nat) :
    ((add_note t0 n now s).taskOf x).dependencies = (s.taskOf x).dependencies ∧
    ((add_note t0 n now s).taskOf x).status = (s.taskOf x).status ∧
    ((add_note t0 n now s).taskOf x).assigned_worker = (s.taskOf x).assigned_worker := by
  by_cases hx : x = t0
  · subst hx
    refine ⟨?_, ?_, ?_⟩ <;> simp [add_note, updTask]
  · refine ⟨?_, ?_, ?_⟩ <;> simp [add_note, updTask, hx]

/-- C6 (amended): when `handle_task_completion` successfully completes task
`T` (returns the success flag), every task remaining in `Organization.tasks`
has the first occurrence of `T` removed from its dependency list (Python
`list.remove`) and `update_status` applied.  Consequently (i) a remaining
task that listed `T` at most once no longer lists it at all, and (ii) a
remaining task other than `T`, not already carrying status `completed`, all
of whose dependencies besides `T` had status `completed`, ends with status
`in_progress` when assigned and `pending` when unassigned — no longer
blocked.  The duplicate-listing and already-`completed` provisos are exactly
what the counterexample shows the original claim to need. -/
theorem c6_dependency_removal (s : OrgState) (T : Nat) (fb : Option String)
    (now : ℚ) (s' : OrgState)
    (h : handle_task_completion T fb now s = some (s', true)) :
    (∀ d ∈ s'.tasks, (s.taskOf d).dependencies.count T ≤ 1 →
        T ∉ (s'.taskOf d).dependencies) ∧
    (∀ d ∈ s'.tasks, d ≠ T →
        T ∈ (s.taskOf d).dependencies →
        (s.taskOf d).dependencies.count T ≤ 1 →
        (∀ e ∈ (s.taskOf d).dependencies, e ≠ T →
          (s.taskOf e).status = Status.completed) →
        (s.taskOf d).status ≠ Status.completed →
        (s'.taskOf d).status =
          (if (s.taskOf d).assigned_worker.isSome then Status.in_progress
           else Status.pending)) := by
  have main : ∀ s3 : OrgState,
      (∀ x, (s3.taskOf x).dependencies = (s.taskOf x).dependencies) →
      (∀ x, (s3.taskOf x).assigned_worker = (s.taskOf x).assigned_worker) →
      (∀ x, x ≠ T → (s3.taskOf x).status = (s.taskOf x).status) →
      (∀ x, (s.taskOf x).status = Status.completed →
        (s3.taskOf x).status = Status.completed) →
      s' = dep_loop T s3 →
      (∀ d ∈ s'.tasks, (s.taskOf d).dependencies.count T ≤ 1 →
          T ∉ (s'.taskOf d).dependencies) ∧
      (∀ d ∈ s'.tasks, d ≠ T →
          T ∈ (s.taskOf d).dependencies →
          (s.taskOf d).dependencies.count T ≤ 1 →
          (∀ e ∈ (s.taskOf d).dependencies, e ≠ T →
            (s.taskOf e).status = Status.completed) →
          (s.taskOf d).status ≠ Status.completed →
          (s'.taskOf d).status =
            (if (s.taskOf d).assigned_worker.isSome then Status.in_progress
             else Status.pending)) := by
    intro s3 f1 f2 f3 f4 e3
    have hlists := (dep_loop_lists T s3).1
    constructor
    · intro d hd hcount
      have hd3 : d ∈ s3.tasks := by
        rw [e3, hlists] at hd
        exact hd
      rw [e3]
      unfold dep_loop
      refine foldl_dep_step_removes T s3.tasks s3 d hd3 ?_
      rw [f1 d]
      exact hcount
    · intro d hd hdne hin hcount hdeps hnc
      have hd3 : d ∈ s3.tasks := by
        rw [e3, hlists] at hd
        exact hd
      rw [e3]
      unfold dep_loop
      refine (foldl_dep_step_status T s3.tasks s3 d hd3 ?_ ?_ ?_ ?_).trans ?_
      · rw [f1 d]
        exact hin
      · rw [f1 d]
        exact hcount
      · intro e he het
        rw [f1 d] at he
        exact f4 e (hdeps e he het)
      · rw [f3 d hdne]
        exact hnc
      · rw [f2 d]
  unfold handle_task_completion at h
  cases hw : (s.taskOf T).assigned_worker with
  | none =>
    rw [hw] at h
    simp at h
  | some w =>
    rw [hw] at h
    dsimp only at h
    cases hct : complete_task w T now s with
    | none =>
      rw [hct] at h
      exact absurd h (by simp)
    | some s1 =>
      rw [hct] at h
      dsimp only at h
      obtain ⟨g1, g2, g3⟩ := complete_task_taskOf w T now s s1 hct
      by_cases hmem : T ∈ s1.tasks
      · rw [if_pos hmem] at h
        simp only [Option.some.injEq, Prod.mk.injEq] at h
        obtain ⟨hs', _⟩ := h
        cases fb with
        | none =>
          refine main _ ?_ ?_ ?_ ?_ hs'.symm
          · intro x
            exact (g1 x).1
          · intro x
            exact (g1 x).2
          · intro x hx
            rw [g2 x hx]
          · intro x hcx
            exact g3 x hcx
        | some f =>
          dsimp only at hs'
          by_cases hf : f = ""
          · rw [if_pos hf] at hs'
            refine main _ ?_ ?_ ?_ ?_ hs'.symm
            · intro x
              exact (g1 x).1
            · intro x
              exact (g1 x).2
            · intro x hx
              rw [g2 x hx]
            · intro x hcx
              exact g3 x hcx
          · rw [if_neg hf] at hs'
            refine main _ ?_ ?_ ?_ ?_ hs'.symm
            · intro x
              have hn := (add_note_taskOf T ("Completion feedback: " ++ f) now
                { s1 with tasks := s1.tasks.erase T
                        , completed_tasks := s1.completed_tasks ++ [T] } x).1
              rw [hn]
              exact (g1 x).1
            · intro x
              have hn := (add_note_taskOf T ("Completion feedback: " ++ f) now
                { s1 with tasks := s1.tasks.erase T
                        , completed_tasks := s1.completed_tasks ++ [T] } x).2.2
              rw [hn]
              exact (g1 x).2
            · intro x hx
              have hn := (add_note_taskOf T ("Completion feedback: " ++ f) now
                { s1 with tasks := s1.tasks.erase T
                        , completed_tasks := s1.completed_tasks ++ [T] } x).2.1
              rw [hn, g2 x hx]
            · intro x hcx
              have hn := (add_note_taskOf T ("Completion feedback: " ++ f) now
                { s1 with tasks := s1.tasks.erase T
                        , completed_tasks := s1.completed_tasks ++ [T] } x).2.1
              rw [hn]
              exact g3 x hcx
      · rw [if_neg hmem] at h
        simp only [Option.some.injEq, Prod.mk.injEq] at h
        obtain ⟨hs', _⟩ := h
        cases fb with
        | none =>
          refine main _ ?_ ?_ ?_ ?_ hs'.symm
          · intro x
            exact (g1 x).1
          · intro x
            exact (g1 x).2
          · intro x hx
            rw [g2 x hx]
          · intro x hcx
            exact g3 x hcx
        | some f =>
          dsimp only at hs'
          by_cases hf : f = ""
          · rw [if_pos hf] at hs'
            refine main _ ?_ ?_ ?_ ?_ hs'.symm
            · intro x
              exact (g1 x).1
            · intro x
              exact (g1 x).2
            · intro x hx
              rw [g2 x hx]
            · intro x hcx
              exact g3 x hcx
          · rw [if_neg hf] at hs'
            refine main _ ?_ ?_ ?_ ?_ hs'.symm
            · intro x
              have hn := (add_note_taskOf T ("Completion feedback: " ++ f) now s1 x).1
              rw [hn]
              exact (g1 x).1
            · intro x
              have hn := (add_note_taskOf T ("Completion feedback: " ++ f) now s1 x).2.2
              rw [hn]
              exact (g1 x).2
            · intro x hx
              have hn := (add_note_taskOf T ("Completion feedback: " ++ f) now s1 x).2.1
              rw [hn, g2 x hx]
            · intro x hcx
              have hn := (add_note_taskOf T ("Completion feedback: " ++ f) now s1 x).2.1
              rw [hn]
              exact g3 x hcx

/-- Witness for C6 (amended) at the concrete organization `sW6`: completing
task 1 leaves task 2's dependency list without task 1 and recomputes its
status from `blocked` to `pending` (task 2 is unassigned). -/
theorem c6_witness :
    (1 : Nat) ∉ (sW6x.taskOf 2).dependencies ∧
    (sW6x.taskOf 2).status = Status.pending := by
  have h : handle_task_completion 1 none 2 sW6 = some (sW6x, true) := by
    with_unfolding_all rfl
  have hmain := c6_dependency_removal sW6 1 none 2 sW6x h
  have hmem : (2 : Nat) ∈ sW6x.tasks := by with_unfolding_all decide
  refine ⟨hmain.1 2 hmem (by decide), ?_⟩
  have h2 := hmain.2 2 hmem (by decide) (by decide) (by decide) (by decide) (by decide)
  rw [h2]
  decide

end Cond
